import Mathlib

/-!
Verification of the substitution script `fix-all-any-types.py`.

The script rewrites TypeScript test files, replacing occurrences of the
TypeScript phrase written here as "RBRACE as any" (where RBRACE is the
closing curly brace) and related patterns by typed casts, via a sequence of
`re.sub` calls.  We embed the string-rewriting core over `List Char`,
model the semantics of `re.sub` for each of the concrete patterns of the
script (leftmost, non-overlapping scanning; each of the script's patterns
is deterministic in the sense that greedy matching never backtracks, which
is argued per pattern at its matcher), and embed `main` as a function from
a file-system model to an exit code, a trace of I/O events and a final
file-system state.
-/

/-- Strings are modelled as lists of characters. -/
abbrev Str := List Char

/-- `startsWith p s` holds iff `p` is a prefix of `s` (Python `s.startswith(p)`). -/
def startsWith : Str → Str → Bool
  | [], _ => true
  | _ :: _, [] => false
  | p :: ps, c :: cs => p = c && startsWith ps cs

/-- `endsW p s` holds iff `p` is a suffix of `s`. -/
def endsW (p s : Str) : Bool := startsWith p.reverse s.reverse

/-- `containsSub p s` holds iff `p` occurs as a contiguous substring of `s`
(Python `p in s`). -/
def containsSub (p : Str) : Str → Bool
  | [] => startsWith p []
  | c :: cs => startsWith p (c :: cs) || containsSub p cs

/-- Python `\w` for the ASCII range: letters, digits and underscore. -/
def wordChar (c : Char) : Bool := c.isAlphanum || c = '_'

/-- A character distinct from the closing curly brace (Python `[^}]`). -/
def nonBrace (c : Char) : Bool := !(c = '\x7d')

/-- Length of the maximal leading run of `\w` characters. -/
def wordRun : Str → Nat
  | [] => 0
  | c :: cs => if wordChar c then wordRun cs + 1 else 0

/-- Length of the maximal leading run of whitespace characters (Python `\s+`). -/
def wsRun : Str → Nat
  | [] => 0
  | c :: cs => if c.isWhitespace then wsRun cs + 1 else 0

/-- Length of the maximal leading run of non-brace characters (Python `[^}]*`). -/
def nbRun : Str → Nat
  | [] => 0
  | c :: cs => if nonBrace c then nbRun cs + 1 else 0

theorem startsWith_nil_left (s : Str) : startsWith [] s = true := by
  cases s <;> rfl

theorem startsWith_cons_nil (p : Char) (ps : Str) : startsWith (p :: ps) [] = false := rfl

theorem startsWith_cons_cons (p c : Char) (ps cs : Str) :
    startsWith (p :: ps) (c :: cs) = (decide (p = c) && startsWith ps cs) := rfl

theorem startsWith_refl (p : Str) : startsWith p p = true := by
  induction p with
  | nil => rfl
  | cons c cs ih => simp [startsWith, ih]

theorem startsWith_ne_nil (p : Str) (h : p ≠ []) : startsWith p [] = false := by
  cases p with
  | nil => exact absurd rfl h
  | cons c cs => rfl

/-- A prefix of `s` is still a prefix after appending on the right. -/
theorem startsWith_extend (p s u : Str) (h : startsWith p s = true) :
    startsWith p (s ++ u) = true := by
  induction p generalizing s with
  | nil => exact startsWith_nil_left _
  | cons c cs ih =>
    cases s with
    | nil => exact absurd h (by simp [startsWith])
    | cons d ds =>
      simp only [startsWith, Bool.and_eq_true, decide_eq_true_eq] at h ⊢
      exact ⟨h.1, ih ds h.2⟩

theorem startsWith_self_append (p u : Str) : startsWith p (p ++ u) = true :=
  startsWith_extend p p u (startsWith_refl p)

/-- If `p` fits inside `a`, whether it is a prefix of `a ++ b` only depends on `a`. -/
theorem startsWith_append_long (p a b : Str) (h : p.length ≤ a.length) :
    startsWith p (a ++ b) = startsWith p a := by
  induction p generalizing a with
  | nil => simp [startsWith_nil_left]
  | cons c cs ih =>
    cases a with
    | nil => simp at h
    | cons d ds =>
      simp only [List.length_cons, Nat.add_le_add_iff_right] at h
      simp only [List.cons_append, startsWith, List.append_eq]
      rw [ih ds h]

theorem startsWith_length_le (p s : Str) (h : startsWith p s = true) :
    p.length ≤ s.length := by
  induction p generalizing s with
  | nil => simp
  | cons c cs ih =>
    cases s with
    | nil => exact absurd h (by simp [startsWith])
    | cons d ds =>
      simp only [startsWith, Bool.and_eq_true] at h
      simpa using ih ds h.2

/-- If `p` is a prefix of `s` then `p` is the initial segment of `s`. -/
theorem startsWith_take (p s : Str) (h : startsWith p s = true) :
    s.take p.length = p := by
  induction p generalizing s with
  | nil => simp
  | cons c cs ih =>
    cases s with
    | nil => exact absurd h (by simp [startsWith])
    | cons d ds =>
      simp only [startsWith, Bool.and_eq_true, decide_eq_true_eq] at h
      simp [List.take, ih ds h.2, h.1]

/-- A prefix of a list satisfying a Boolean predicate everywhere satisfies it too. -/
theorem startsWith_all (p s : Str) (f : Char → Bool) (h : startsWith p s = true)
    (hall : s.all f = true) : p.all f = true := by
  induction p generalizing s with
  | nil => rfl
  | cons c cs ih =>
    cases s with
    | nil => exact absurd h (by simp [startsWith])
    | cons d ds =>
      simp only [startsWith, Bool.and_eq_true, decide_eq_true_eq] at h
      simp only [List.all_cons, Bool.and_eq_true] at hall ⊢
      exact ⟨h.1 ▸ hall.1, ih ds h.2 hall.2⟩

theorem startsWith_mem (p s : Str) (c : Char) (h : startsWith p s = true)
    (hc : c ∈ p) : c ∈ s := by
  induction p generalizing s with
  | nil => simp at hc
  | cons d ds ih =>
    cases s with
    | nil => exact absurd h (by simp [startsWith])
    | cons e es =>
      simp only [startsWith, Bool.and_eq_true, decide_eq_true_eq] at h
      rcases List.mem_cons.mp hc with h1 | h1
      · exact List.mem_cons.mpr (Or.inl (h1.trans h.1))
      · exact List.mem_cons.mpr (Or.inr (ih es h.2 h1))

/-- A prefix of a concatenation either lies inside the first part, or
swallows it whole. -/
theorem startsWith_split (p a b : Str) (h : startsWith p (a ++ b) = true) :
    (p.length ≤ a.length ∧ startsWith p a = true) ∨
    (a.length < p.length ∧ startsWith a p = true ∧
      startsWith (p.drop a.length) b = true) := by
  induction a generalizing p with
  | nil =>
    cases p with
    | nil => exact Or.inl ⟨Nat.le_refl 0, rfl⟩
    | cons c cs =>
      refine Or.inr ⟨by simp, startsWith_nil_left _, ?_⟩
      simpa using h
  | cons d ds ih =>
    cases p with
    | nil => exact Or.inl ⟨by simp, rfl⟩
    | cons c cs =>
      simp only [List.cons_append, startsWith, Bool.and_eq_true] at h
      rcases ih cs h.2 with ⟨h1, h2⟩ | ⟨h1, h2, h3⟩
      · exact Or.inl ⟨by simpa using h1, by simp [startsWith, h.1, h2]⟩
      · refine Or.inr ⟨by simpa using h1, ?_, ?_⟩
        · have hcd : c = d := by simpa using h.1
          simp only [startsWith, Bool.and_eq_true, decide_eq_true_eq]
          exact ⟨hcd.symm, h2⟩
        · simpa using h3

theorem containsSub_nil (p : Str) : containsSub p [] = startsWith p [] := rfl

theorem containsSub_cons (p : Str) (c : Char) (cs : Str) :
    containsSub p (c :: cs) = (startsWith p (c :: cs) || containsSub p cs) := rfl

theorem containsSub_of_startsWith (p s : Str) (h : startsWith p s = true) :
    containsSub p s = true := by
  cases s with
  | nil => simpa [containsSub] using h
  | cons c cs => simp [containsSub_cons, h]

theorem containsSub_cons_of_tail (p : Str) (c : Char) (cs : Str)
    (h : containsSub p cs = true) : containsSub p (c :: cs) = true := by
  simp [containsSub_cons, h]

/-- A substring of the tail obtained by `drop` is a substring of the whole list. -/
theorem containsSub_of_drop (p s : Str) (n : Nat)
    (h : containsSub p (s.drop n) = true) : containsSub p s = true := by
  induction s generalizing n with
  | nil => simpa using h
  | cons c cs ih =>
    cases n with
    | zero => simpa using h
    | succ k =>
      simp only [List.drop_succ_cons] at h
      exact containsSub_cons_of_tail _ _ _ (ih k h)

/-- If `p` does not occur in `s` it does not occur in any `drop` of `s`. -/
theorem containsSub_drop_of_not (p s : Str) (n : Nat)
    (h : containsSub p s = false) : containsSub p (s.drop n) = false := by
  by_contra hc
  have := containsSub_of_drop p s n (by
    cases hx : containsSub p (s.drop n) with
    | true => rfl
    | false => exact absurd hx hc)
  rw [this] at h
  exact Bool.true_eq_false.mp h

theorem containsSub_mem (p s : Str) (c : Char) (h : containsSub p s = true)
    (hc : c ∈ p) : c ∈ s := by
  induction s with
  | nil =>
    rw [containsSub_nil] at h
    cases p with
    | nil => simp at hc
    | cons d ds => exact absurd h (by simp [startsWith])
  | cons d ds ih =>
    rw [containsSub_cons] at h
    rcases Bool.or_eq_true_iff.mp h with h1 | h1
    · exact startsWith_mem p _ c h1 hc
    · exact List.mem_cons.mpr (Or.inr (ih h1))

theorem containsSub_append_right (p a b : Str) (h : containsSub p b = true) :
    containsSub p (a ++ b) = true := by
  induction a with
  | nil => simpa using h
  | cons c cs ih => exact containsSub_cons_of_tail _ _ _ ih

theorem endsW_refl (p : Str) : endsW p p = true := startsWith_refl _

theorem endsW_cons (p : Str) (c : Char) (s : Str) (h : endsW p s = true) :
    endsW p (c :: s) = true := by
  unfold endsW at h ⊢
  rw [List.reverse_cons]
  exact startsWith_extend _ _ _ h

theorem endsW_mem (p s : Str) (c : Char) (h : endsW p s = true) (hc : c ∈ p) :
    c ∈ s := by
  unfold endsW at h
  have := startsWith_mem _ _ c h (List.mem_reverse.mpr hc)
  exact List.mem_reverse.mp this

/-- If `p` fits inside `b`, whether it is a suffix of `a ++ b` only depends on `b`. -/
theorem endsW_append_long (p a b : Str) (h : p.length ≤ b.length) :
    endsW p (a ++ b) = endsW p b := by
  unfold endsW
  rw [List.reverse_append]
  exact startsWith_append_long _ _ _ (by simpa using h)

/-- Decomposition of a substring occurrence in a concatenation: the occurrence
lies in the left part, in the right part, or straddles the junction. -/
theorem containsSub_append_elim (p a b : Str) (h : containsSub p (a ++ b) = true) :
    containsSub p a = true ∨ containsSub p b = true ∨
    ∃ i, 0 < i ∧ i < p.length ∧ endsW (p.take i) a = true ∧
      startsWith (p.drop i) b = true := by
  induction a with
  | nil => exact Or.inr (Or.inl (by simpa using h))
  | cons c cs ih =>
    rw [List.cons_append, containsSub_cons] at h
    rcases Bool.or_eq_true_iff.mp h with h1 | h1
    · rcases startsWith_split p (c :: cs) b h1 with ⟨hl, hsw⟩ | ⟨hl, hsw, hdrop⟩
      · exact Or.inl (containsSub_of_startsWith _ _ hsw)
      · refine Or.inr (Or.inr ⟨(c :: cs).length, by simp, hl, ?_, hdrop⟩)
        rw [startsWith_take _ _ hsw]
        exact endsW_refl _
    · rcases ih h1 with h2 | h2 | ⟨i, hi0, hil, hew, hsw⟩
      · exact Or.inl (containsSub_cons_of_tail _ _ _ h2)
      · exact Or.inr (Or.inl h2)
      · exact Or.inr (Or.inr ⟨i, hi0, hil, endsW_cons _ _ _ hew, hsw⟩)

/-- The string "RBRACE as any)" (written with the brace escaped), the phrase whose
absence after Pattern 1 makes the later substitutions vacuous. -/
def anyPat : Str := "\x7d as any)".toList

/-- `anyPat` without its leading brace. -/
def patTail : Str := " as any)".toList

theorem anyPat_eq : anyPat = '\x7d' :: patTail := by decide

theorem anyPat_ne_nil : anyPat ≠ [] := by decide

theorem anyPat_length : anyPat.length = 9 := by decide

theorem patTail_length : patTail.length = 8 := by decide

theorem patTail_drop_ne_nil : ∀ j, j < 8 → patTail.drop j ≠ [] := by decide

theorem patTail_drop_length (j : Nat) : (patTail.drop j).length ≤ 8 := by
  rw [List.length_drop, patTail_length]
  omega

theorem anyPat_take_eq : ∀ i, i < 9 → 0 < i →
    anyPat.take i = '\x7d' :: patTail.take (i - 1) := by decide

/-- Leftmost, non-overlapping substitution scan, the semantics of `re.sub`
for the patterns of the script.  `tryM s = some (r, k)` means the pattern
matches a prefix of `s` of length `k + 1` and the replacement text for this
match is `r`; the scan then resumes after the matched prefix.  The `fuel`
argument makes the recursion structural; `runSub` supplies sufficient fuel. -/
def reSubF (tryM : Str → Option (Str × Nat)) : Nat → Str → Str
  | 0, s => s
  | _ + 1, [] => []
  | f + 1, c :: cs =>
    match tryM (c :: cs) with
    | some (r, k) => r ++ reSubF tryM f (cs.drop k)
    | none => c :: reSubF tryM f cs

/-- One `re.sub` call: scan the whole string with sufficient fuel (every
match consumes at least one character, so `s.length` steps suffice). -/
def runSub (tryM : Str → Option (Str × Nat)) (s : Str) : Str :=
  reSubF tryM s.length s

theorem reSubF_zero (tryM : Str → Option (Str × Nat)) (s : Str) :
    reSubF tryM 0 s = s := rfl

theorem reSubF_nil (tryM : Str → Option (Str × Nat)) (f : Nat) :
    reSubF tryM f [] = [] := by cases f <;> rfl

theorem reSubF_succ_some (tryM : Str → Option (Str × Nat)) (f : Nat) (c : Char)
    (cs : Str) (r : Str) (k : Nat) (h : tryM (c :: cs) = some (r, k)) :
    reSubF tryM (f + 1) (c :: cs) = r ++ reSubF tryM f (cs.drop k) := by
  show (match tryM (c :: cs) with
    | some (r, k) => r ++ reSubF tryM f (cs.drop k)
    | none => c :: reSubF tryM f cs) = r ++ reSubF tryM f (cs.drop k)
  rw [h]

theorem reSubF_succ_none (tryM : Str → Option (Str × Nat)) (f : Nat) (c : Char)
    (cs : Str) (h : tryM (c :: cs) = none) :
    reSubF tryM (f + 1) (c :: cs) = c :: reSubF tryM f cs := by
  show (match tryM (c :: cs) with
    | some (r, k) => r ++ reSubF tryM f (cs.drop k)
    | none => c :: reSubF tryM f cs) = c :: reSubF tryM f cs
  rw [h]

/-- If the pattern matches no suffix of `s`, the substitution is the identity. -/
theorem reSubF_id (tryM : Str → Option (Str × Nat)) :
    ∀ f s, (∀ n, tryM (s.drop n) = none) → reSubF tryM f s = s := by
  intro f
  induction f with
  | zero => intro s _; rfl
  | succ f ih =>
    intro s h
    cases s with
    | nil => rfl
    | cons c cs =>
      have h0 : tryM (c :: cs) = none := by simpa using h 0
      rw [reSubF_succ_none tryM f c cs h0]
      have htail : ∀ n, tryM (cs.drop n) = none := by
        intro n
        have := h (n + 1)
        rwa [List.drop_succ_cons] at this
      rw [ih cs htail]

/-- The safety conditions on a replacement text `r` ensuring that inserting
`r` into a string can neither contain nor help form an occurrence of
`anyPat`: `r` is at least as long as `anyPat`'s tail, no suffix of
`patTail` is a prefix of `r`, `anyPat` does not occur inside `r`, and no
nonempty proper prefix of `anyPat` is a suffix of `r`. -/
def ReplOkB (r : Str) : Prop :=
  8 ≤ r.length ∧
  (∀ j, j < 8 → startsWith (patTail.drop j) r = false) ∧
  containsSub anyPat r = false ∧
  (∀ i, i < 8 → endsW ('\x7d' :: patTail.take i) r = false)

instance (r : Str) : Decidable (ReplOkB r) := by
  unfold ReplOkB
  infer_instance

/-- Every replacement a matcher can emit satisfies `ReplOkB`. -/
def ReplOkAll (tryM : Str → Option (Str × Nat)) : Prop :=
  ∀ s r k, tryM s = some (r, k) → ReplOkB r

/-- Scanning cannot create a new prefix that is a suffix of `patTail`:
if `patTail.drop j` is not a prefix of `t`, it is not a prefix of the
substituted string either. -/
theorem aux_tail (tryM : Str → Option (Str × Nat)) (hok : ReplOkAll tryM) :
    ∀ f t j, j < 8 → startsWith (patTail.drop j) t = false →
      startsWith (patTail.drop j) (reSubF tryM f t) = false := by
  intro f
  induction f with
  | zero => intro t j _ h; exact h
  | succ f ih =>
    intro t j hj h
    cases t with
    | nil => exact startsWith_ne_nil _ (patTail_drop_ne_nil j hj)
    | cons c cs =>
      cases htry : tryM (c :: cs) with
      | some rk =>
        obtain ⟨r, k⟩ := rk
        rw [reSubF_succ_some tryM f c cs r k htry]
        obtain ⟨hlen, hpre, -, -⟩ := hok _ _ _ htry
        rw [startsWith_append_long _ _ _ ((patTail_drop_length j).trans hlen)]
        exact hpre j hj
      | none =>
        rw [reSubF_succ_none tryM f c cs htry]
        have hjlt : j < patTail.length := by rw [patTail_length]; exact hj
        rw [List.drop_eq_getElem_cons hjlt] at h ⊢
        rw [startsWith_cons_cons] at h ⊢
        by_cases hpd : patTail[j] = c
        · have h2 : startsWith (patTail.drop (j + 1)) cs = false := by
            rw [hpd] at h
            simpa using h
          have h3 : startsWith (patTail.drop (j + 1)) (reSubF tryM f cs) = false := by
            by_cases hj7 : j + 1 < 8
            · exact ih cs (j + 1) hj7 h2
            · exfalso
              have hj8 : j + 1 = 8 := by omega
              rw [hj8] at h2
              have he : patTail.drop 8 = ([] : Str) := by decide
              rw [he, startsWith_nil_left] at h2
              simp at h2
          simp [hpd, h3]
        · simp [hpd]

/-- A substitution whose replacements satisfy `ReplOkB` cannot introduce an
occurrence of `anyPat` into a string free of it. -/
theorem master_pre (tryM : Str → Option (Str × Nat)) (hok : ReplOkAll tryM) :
    ∀ f s, containsSub anyPat s = false →
      containsSub anyPat (reSubF tryM f s) = false := by
  intro f
  induction f with
  | zero => intro s h; exact h
  | succ f ih =>
    intro s h
    cases s with
    | nil => simpa using h
    | cons c cs =>
      rw [containsSub_cons] at h
      obtain ⟨hsw, htail⟩ := Bool.or_eq_false_iff.mp h
      cases htry : tryM (c :: cs) with
      | some rk =>
        obtain ⟨r, k⟩ := rk
        rw [reSubF_succ_some tryM f c cs r k htry]
        obtain ⟨hlen, hpre, hnopat, hend⟩ := hok _ _ _ htry
        cases hres : containsSub anyPat (r ++ reSubF tryM f (cs.drop k)) with
        | false => rfl
        | true =>
          exfalso
          rcases containsSub_append_elim _ _ _ hres with h1 | h1 | ⟨i, hi0, hil, hew, -⟩
          · rw [h1] at hnopat
            simp at hnopat
          · have := ih (cs.drop k) (containsSub_drop_of_not _ _ k htail)
            rw [h1] at this
            simp at this
          · rw [anyPat_length] at hil
            rw [anyPat_take_eq i hil hi0] at hew
            have := hend (i - 1) (by omega)
            rw [hew] at this
            simp at this
      | none =>
        rw [reSubF_succ_none tryM f c cs htry]
        rw [containsSub_cons]
        have hocc : containsSub anyPat (reSubF tryM f cs) = false := ih cs htail
        have hhead : startsWith anyPat (c :: reSubF tryM f cs) = false := by
          rw [anyPat_eq, startsWith_cons_cons] at hsw ⊢
          by_cases hc : '\x7d' = c
          · have h2 : startsWith patTail cs = false := by
              rw [hc] at hsw
              simpa using hsw
            have h3 := aux_tail tryM hok f cs 0 (by omega)
              (by rw [List.drop_zero]; exact h2)
            rw [List.drop_zero] at h3
            simp [hc, h3]
          · simp [hc]
        rw [hhead, hocc]
        rfl

/-- A substitution whose matcher fires on every prefix occurrence of
`anyPat` (which is the case for Pattern 1) leaves no occurrence of
`anyPat` in its output, for an arbitrary input. -/
theorem master_total (tryM : Str → Option (Str × Nat)) (hok : ReplOkAll tryM)
    (hnone : ∀ c cs, tryM (c :: cs) = none →
      startsWith anyPat (c :: cs) = false) :
    ∀ f s, s.length ≤ f → containsSub anyPat (reSubF tryM f s) = false := by
  intro f
  induction f with
  | zero =>
    intro s hlen
    have : s = [] := List.length_eq_zero.mp (Nat.le_zero.mp hlen)
    subst this
    simp [containsSub, startsWith_ne_nil _ anyPat_ne_nil]
  | succ f ih =>
    intro s hlen
    cases s with
    | nil => simp [reSubF_nil, containsSub, startsWith_ne_nil _ anyPat_ne_nil]
    | cons c cs =>
      have hcslen : cs.length ≤ f := by simpa using hlen
      cases htry : tryM (c :: cs) with
      | some rk =>
        obtain ⟨r, k⟩ := rk
        rw [reSubF_succ_some tryM f c cs r k htry]
        obtain ⟨hlen', hpre, hnopat, hend⟩ := hok _ _ _ htry
        cases hres : containsSub anyPat (r ++ reSubF tryM f (cs.drop k)) with
        | false => rfl
        | true =>
          exfalso
          rcases containsSub_append_elim _ _ _ hres with h1 | h1 | ⟨i, hi0, hil, hew, -⟩
          · rw [h1] at hnopat
            simp at hnopat
          · have := ih (cs.drop k) ((List.length_drop k cs ▸ Nat.sub_le _ _).trans hcslen)
            rw [h1] at this
            simp at this
          · rw [anyPat_length] at hil
            rw [anyPat_take_eq i hil hi0] at hew
            have := hend (i - 1) (by omega)
            rw [hew] at this
            simp at this
      | none =>
        rw [reSubF_succ_none tryM f c cs htry]
        rw [containsSub_cons]
        have hocc : containsSub anyPat (reSubF tryM f cs) = false := ih cs hcslen
        have hsw := hnone c cs htry
        have hhead : startsWith anyPat (c :: reSubF tryM f cs) = false := by
          rw [anyPat_eq, startsWith_cons_cons] at hsw ⊢
          by_cases hc : '\x7d' = c
          · have h2 : startsWith patTail cs = false := by
              rw [hc] at hsw
              simpa using hsw
            have h3 := aux_tail tryM hok f cs 0 (by omega)
              (by rw [List.drop_zero]; exact h2)
            rw [List.drop_zero] at h3
            simp [hc, h3]
          · simp [hc]
        rw [hhead, hocc]
        rfl

theorem startsWith_append_elim (a b s : Str) (h : startsWith (a ++ b) s = true) :
    startsWith a s = true ∧ startsWith b (s.drop a.length) = true := by
  induction a generalizing s with
  | nil => exact ⟨startsWith_nil_left s, by simpa using h⟩
  | cons c cs ih =>
    cases s with
    | nil => simp [startsWith] at h
    | cons d ds =>
      rw [List.cons_append, startsWith_cons_cons] at h
      rw [Bool.and_eq_true] at h
      obtain ⟨h1, h2⟩ := h
      have h3 := ih ds h2
      constructor
      · rw [startsWith_cons_cons, h1, h3.1]
        rfl
      · simpa using h3.2

theorem wordRun_le_length (s : Str) : wordRun s ≤ s.length := by
  induction s with
  | nil => exact Nat.le_refl 0
  | cons c cs ih =>
    by_cases hc : wordChar c = true <;> simp [wordRun, hc] <;> omega

theorem wsRun_le_length (s : Str) : wsRun s ≤ s.length := by
  induction s with
  | nil => exact Nat.le_refl 0
  | cons c cs ih =>
    by_cases hc : c.isWhitespace = true <;> simp [wsRun, hc] <;> omega

theorem nbRun_le_length (s : Str) : nbRun s ≤ s.length := by
  induction s with
  | nil => exact Nat.le_refl 0
  | cons c cs ih =>
    by_cases hc : nonBrace c = true <;> simp [nbRun, hc] <;> omega

theorem wordRun_take_all (s : Str) : (s.take (wordRun s)).all wordChar = true := by
  induction s with
  | nil => rfl
  | cons c cs ih =>
    by_cases hc : wordChar c = true
    · simp [wordRun, hc, ih]
    · simp [wordRun, hc]

theorem wsRun_take_all (s : Str) : (s.take (wsRun s)).all Char.isWhitespace = true := by
  induction s with
  | nil => rfl
  | cons c cs ih =>
    by_cases hc : c.isWhitespace = true
    · simp [wsRun, hc, ih]
    · simp [wsRun, hc]

theorem nbRun_take_all (s : Str) : (s.take (nbRun s)).all nonBrace = true := by
  induction s with
  | nil => rfl
  | cons c cs ih =>
    by_cases hc : nonBrace c = true
    · simp [nbRun, hc, ih]
    · simp [nbRun, hc]

theorem take_run_ne_nil (s : Str) (n : Nat) (hn : n ≠ 0) (hle : n ≤ s.length) :
    s.take n ≠ [] := by
  have hl : (s.take n).length = n := by rw [List.length_take]; omega
  intro he
  rw [he] at hl
  simp at hl
  exact hn hl.symm

/-!  The literal pieces of the script's regular expressions and replacement
templates.  Curly braces are written with character escapes. -/

/-- The literal "RBRACE as any" of Pattern 1 (also the fragment tested by the
`'RBRACE as any' in content` guard of the stats special case, and the tail
`\RBRACE as any` of the mockResourceManager special case). -/
def lit1 : Str := "\x7d as any".toList

/-- The fixed part of Pattern 1's replacement, before the captured delimiter. -/
def rep1core : Str := "\x7d as unknown as MockedObject".toList

/-- The character class `[;,)]` of Pattern 1. -/
def classCh (c : Char) : Bool := c = ';' || c = ',' || c = ')'

/-- The literal " as any;" of Pattern 2. -/
def lit2m : Str := " as any;".toList

/-- The fixed tail of Pattern 2's replacement. -/
def rep2t : Str := " as unknown as jest.MockedObject;".toList

/-- The literal "const mockedFs = " of Pattern 3. -/
def lit3a : Str := "const mockedFs = ".toList

/-- The literal " as any" of Pattern 3. -/
def lit3m : Str := " as any".toList

/-- The middle of Pattern 3's replacement, between the two uses of group 1. -/
def rep3mid : Str := " as unknown as jest.Mocked<typeof ".toList

/-- Pattern 4: matched literal. -/
def lit4 : Str := "let mockConnection: any".toList

/-- Pattern 4: replacement. -/
def rep4 : Str := "let mockConnection: unknown".toList

/-- Pattern 5: matched literal. -/
def lit5 : Str := "_connection: any".toList

/-- Pattern 5: replacement. -/
def rep5 : Str := "_connection: unknown".toList

/-- Pattern 6: matched literal. -/
def lit6 : Str := "const obj: any =".toList

/-- Pattern 6: replacement. -/
def rep6 : Str := "const obj: Record<string, unknown> =".toList

/-- Guard literal of the mockResourceManager special case. -/
def litRMg : Str := "mockResourceManager".toList

/-- The literal "mockResourceManager = LBRACE" of the mockResourceManager regex. -/
def litRMa : Str := "mockResourceManager = \x7b".toList

/-- The fixed tail of the mockResourceManager replacement. -/
def repRMend : Str := "\x7d as unknown as jest.Mocked<ResourceManager>".toList

/-- Guard literal of the stats special case. -/
def litIsDir : Str := "isDirectory".toList

/-- The literal "return Promise.resolve(LBRACE" of the stats regex. -/
def litSta : Str := "return Promise.resolve(\x7b".toList

/-- The fixed tail of the stats replacement, after the captured group. -/
def repStaEnd : Str := " as unknown as fs.Stats)".toList

/-- Pattern 8: the four matched literals and replacements. -/
def lit8a : Str := "logOperation: jest.fn() as any".toList

def rep8a : Str := "logOperation: jest.fn()".toList

def lit8b : Str := "getLogEntries: jest.fn() as any".toList

def rep8b : Str := "getLogEntries: jest.fn()".toList

def lit8c : Str := "getOperationStatistics: jest.fn() as any".toList

def rep8c : Str := "getOperationStatistics: jest.fn()".toList

def lit8d : Str := "clearLogs: jest.fn() as any".toList

def rep8d : Str := "clearLogs: jest.fn()".toList

/-- Guard literal "ServerConfig" of Pattern 9. -/
def litSC : Str := "ServerConfig".toList

/-- Guard literal "eventLogger" of Pattern 9. -/
def litELg : Str := "eventLogger".toList

/-- The literal "eventLogger:" of Pattern 9's regex. -/
def litEL : Str := "eventLogger:".toList

/-- The fixed tail of Pattern 9's replacement. -/
def repP9end : Str := "\x7d as unknown as ServerConfig)".toList

/-- Pattern 1 matcher: `\x7d as any([;,)])`.  The pattern is a literal
followed by a one-character class, so matching is deterministic. -/
def try1 (s : Str) : Option (Str × Nat) :=
  if startsWith lit1 s then
    match s.drop 8 with
    | c :: _ => if classCh c then some (rep1core ++ [c], 8) else none
    | [] => none
  else none

/-- Pattern 2 matcher: `(\w+) as any;`.  A match at a position forces the
group to be the maximal `\w` run there: backtracking the greedy `\w+` would
place a word character where the literal requires a space. -/
def try2 (s : Str) : Option (Str × Nat) :=
  if wordRun s = 0 then none
  else if startsWith lit2m (s.drop (wordRun s)) then
    some (s.take (wordRun s) ++ rep2t, wordRun s + 7)
  else none

/-- Pattern 3 matcher: `const mockedFs = (\w+) as any`; deterministic for
the same reason as Pattern 2. -/
def try3 (s : Str) : Option (Str × Nat) :=
  if startsWith lit3a s then
    if wordRun (s.drop 17) = 0 then none
    else if startsWith lit3m ((s.drop 17).drop (wordRun (s.drop 17))) then
      some (lit3a ++ (s.drop 17).take (wordRun (s.drop 17)) ++ rep3mid ++
        (s.drop 17).take (wordRun (s.drop 17)) ++ ['>'], 17 + wordRun (s.drop 17) + 6)
    else none
  else none

/-- Matcher for a fixed literal pattern with a fixed replacement (Patterns
4, 5, 6 and the four Pattern 8 substitutions). -/
def tryLit (m r : Str) (s : Str) : Option (Str × Nat) :=
  if startsWith m s then some (r, m.length - 1) else none

/-- mockResourceManager special-case matcher:
`(\s+)mockResourceManager = \x7b([^\x7d]+)\x7d as any`.  The greedy `\s+` and
`[^\x7d]+` cannot backtrack: shortening `\s+` puts a whitespace character
where the literal `m` is required, and `[^\x7d]+` must stop exactly at the
first closing brace. -/
def tryRM (s : Str) : Option (Str × Nat) :=
  if wsRun s = 0 then none
  else if startsWith litRMa (s.drop (wsRun s)) then
    if nbRun (s.drop (wsRun s + 23)) = 0 then none
    else if startsWith lit1 ((s.drop (wsRun s + 23)).drop (nbRun (s.drop (wsRun s + 23)))) then
      some (s.take (wsRun s) ++ litRMa ++
        (s.drop (wsRun s + 23)).take (nbRun (s.drop (wsRun s + 23))) ++ repRMend,
        wsRun s + 23 + nbRun (s.drop (wsRun s + 23)) + 7)
    else none
  else none

/-- Stats special-case matcher:
`(\s+return Promise\.resolve\(\x7b[^\x7d]*isDirectory[^\x7d]*\x7d) as any\)`.
The two `[^\x7d]*` pieces together span the brace-free run up to the first
closing brace, and a decomposition `u ++ isDirectory ++ v` of that run
exists iff `isDirectory` occurs inside it. -/
def tryStats (s : Str) : Option (Str × Nat) :=
  if wsRun s = 0 then none
  else if startsWith litSta (s.drop (wsRun s)) then
    if containsSub litIsDir ((s.drop (wsRun s + 24)).take (nbRun (s.drop (wsRun s + 24)))) then
      if startsWith anyPat ((s.drop (wsRun s + 24)).drop (nbRun (s.drop (wsRun s + 24)))) then
        some (s.take (wsRun s) ++ litSta ++
          (s.drop (wsRun s + 24)).take (nbRun (s.drop (wsRun s + 24))) ++ ['\x7d'] ++ repStaEnd,
          wsRun s + 24 + nbRun (s.drop (wsRun s + 24)) + 8)
      else none
    else none
  else none

/-- Pattern 9 matcher: `(\s+eventLogger:[^\x7d]+)\x7d as any\)`;
deterministic like the mockResourceManager case. -/
def tryP9 (s : Str) : Option (Str × Nat) :=
  if wsRun s = 0 then none
  else if startsWith litEL (s.drop (wsRun s)) then
    if nbRun (s.drop (wsRun s + 12)) = 0 then none
    else if startsWith anyPat ((s.drop (wsRun s + 12)).drop (nbRun (s.drop (wsRun s + 12)))) then
      some (s.take (wsRun s) ++ litEL ++
        (s.drop (wsRun s + 12)).take (nbRun (s.drop (wsRun s + 12))) ++ repP9end,
        wsRun s + 12 + nbRun (s.drop (wsRun s + 12)) + 8)
    else none
  else none

theorem all_not_mem (l : Str) (f : Char → Bool) (hall : l.all f = true) (c : Char)
    (hc : f c = false) : c ∉ l := by
  intro hm
  have h2 := List.all_eq_true.mp hall c hm
  rw [hc] at h2
  exact absurd h2 (by simp)

theorem brace_mem_anyPat : '\x7d' ∈ anyPat := by decide

theorem noBrace_cs (r : Str) (h : '\x7d' ∉ r) : containsSub anyPat r = false := by
  cases hx : containsSub anyPat r with
  | false => rfl
  | true => exact absurd (containsSub_mem _ _ _ hx brace_mem_anyPat) h

theorem noBrace_ew (r : Str) (h : '\x7d' ∉ r) :
    ∀ i, i < 8 → endsW ('\x7d' :: patTail.take i) r = false := by
  intro i _
  cases hx : endsW ('\x7d' :: patTail.take i) r with
  | false => rfl
  | true => exact absurd (endsW_mem _ _ _ hx (List.mem_cons_self _ _)) h

/-- Appending a brace-free string to a string free of `anyPat` stays free of
`anyPat` (every occurrence of `anyPat`, and every nonempty prefix of one,
contains a closing brace). -/
theorem cs_pat_append_bfree (a b : Str) (ha : '\x7d' ∉ a)
    (hb : containsSub anyPat b = false) : containsSub anyPat (a ++ b) = false := by
  cases hx : containsSub anyPat (a ++ b) with
  | false => rfl
  | true =>
    exfalso
    rcases containsSub_append_elim _ _ _ hx with h1 | h1 | ⟨i, hi0, hil, hew, -⟩
    · exact absurd (containsSub_mem _ _ _ h1 brace_mem_anyPat) ha
    · rw [h1] at hb
      exact absurd hb (by simp)
    · have hbm : '\x7d' ∈ anyPat.take i := by
        rw [anyPat_length] at hil
        rw [anyPat_take_eq i hil hi0]
        exact List.mem_cons_self _ _
      exact absurd (endsW_mem _ _ _ hew hbm) ha

theorem patTail_drop_not_word : ∀ j, j < 8 →
    (patTail.drop j).all wordChar = false := by decide

theorem patTail_drop_not_ws : ∀ j, j < 8 →
    (patTail.drop j).all Char.isWhitespace = false := by decide

theorem patTail_seg_word_rep2t : ∀ j, j < 8 → ∀ m, m < 8 → 1 ≤ m →
    ¬(((patTail.drop j).take m).all wordChar = true ∧
      startsWith ((patTail.drop j).drop m) rep2t = true) := by decide

theorem patTail_seg_ws_litRMa : ∀ j, j < 8 → ∀ m, m < 8 → 1 ≤ m →
    ¬(((patTail.drop j).take m).all Char.isWhitespace = true ∧
      startsWith ((patTail.drop j).drop m) litRMa = true) := by decide

theorem patTail_drop_lit3a : ∀ j, j < 8 →
    startsWith (patTail.drop j) lit3a = false := by decide

theorem cs_anyPat_repRMend : containsSub anyPat repRMend = false := by decide

theorem ew_repRMend : ∀ i, i < 8 →
    endsW ('\x7d' :: patTail.take i) repRMend = false := by decide

theorem replok_rep1 (c : Char) (hc : classCh c = true) :
    ReplOkB (rep1core ++ [c]) := by
  have h3 : (c = ';' ∨ c = ',') ∨ c = ')' := by
    simpa [classCh] using hc
  rcases h3 with (rfl | rfl) | rfl <;> decide

theorem replok_rep4 : ReplOkB rep4 := by decide

theorem replok_rep5 : ReplOkB rep5 := by decide

theorem replok_rep6 : ReplOkB rep6 := by decide

theorem replok_rep8a : ReplOkB rep8a := by decide

theorem replok_rep8b : ReplOkB rep8b := by decide

theorem replok_rep8c : ReplOkB rep8c := by decide

theorem replok_rep8d : ReplOkB rep8d := by decide

/-- Pattern 2's replacement is safe for any captured word group. -/
theorem replok_word_rep2t (w : Str) (hne : w ≠ []) (hall : w.all wordChar = true) :
    ReplOkB (w ++ rep2t) := by
  have hnb : '\x7d' ∉ w ++ rep2t := by
    intro hm
    rcases List.mem_append.mp hm with hm | hm
    · exact all_not_mem w wordChar hall '\x7d' (by decide) hm
    · exact absurd hm (by decide)
  refine ⟨?_, ?_, noBrace_cs _ hnb, noBrace_ew _ hnb⟩
  · rw [List.length_append]
    have h8 : (8:Nat) ≤ rep2t.length := by decide
    omega
  · intro j hj
    cases hx : startsWith (patTail.drop j) (w ++ rep2t) with
    | false => rfl
    | true =>
      exfalso
      rcases startsWith_split _ _ _ hx with ⟨h1, h2⟩ | ⟨h1, h2, h3⟩
      · have hw := startsWith_all _ _ _ h2 hall
        rw [patTail_drop_not_word j hj] at hw
        exact absurd hw (by simp)
      · have hwl1 : 1 ≤ w.length := by
          cases w with
          | nil => exact absurd rfl hne
          | cons a as => simp
        have hwlt : w.length < 8 := lt_of_lt_of_le h1 (patTail_drop_length j)
        refine patTail_seg_word_rep2t j hj w.length hwlt hwl1 ⟨?_, h3⟩
        rw [startsWith_take _ _ h2]
        exact hall

/-- Pattern 3's replacement is safe for any captured word group. -/
theorem replok_rep3 (w : Str) (hall : w.all wordChar = true) :
    ReplOkB (lit3a ++ w ++ rep3mid ++ w ++ ['>']) := by
  have hnb : '\x7d' ∉ lit3a ++ w ++ rep3mid ++ w ++ ['>'] := by
    intro hm
    rcases List.mem_append.mp hm with hm | hm
    · rcases List.mem_append.mp hm with hm | hm
      · rcases List.mem_append.mp hm with hm | hm
        · rcases List.mem_append.mp hm with hm | hm
          · exact absurd hm (by decide)
          · exact all_not_mem w wordChar hall '\x7d' (by decide) hm
        · exact absurd hm (by decide)
      · exact all_not_mem w wordChar hall '\x7d' (by decide) hm
    · exact absurd hm (by decide)
  refine ⟨?_, ?_, noBrace_cs _ hnb, noBrace_ew _ hnb⟩
  · have h17 : lit3a.length = 17 := by decide
    simp only [List.length_append]
    omega
  · intro j hj
    rw [List.append_assoc, List.append_assoc, List.append_assoc]
    rw [startsWith_append_long _ _ _ (by
      have := patTail_drop_length j
      have h17 : lit3a.length = 17 := by decide
      omega)]
    exact patTail_drop_lit3a j hj

/-- The mockResourceManager replacement is safe for any whitespace group and
any brace-free group. -/
theorem replok_repRM (w1 w2 : Str) (hne1 : w1 ≠ [])
    (ha1 : w1.all Char.isWhitespace = true) (ha2 : w2.all nonBrace = true) :
    ReplOkB (w1 ++ litRMa ++ w2 ++ repRMend) := by
  have hA : '\x7d' ∉ w1 ++ litRMa ++ w2 := by
    intro hm
    rcases List.mem_append.mp hm with hm | hm
    · rcases List.mem_append.mp hm with hm | hm
      · exact all_not_mem w1 Char.isWhitespace ha1 '\x7d' (by decide) hm
      · exact absurd hm (by decide)
    · exact all_not_mem w2 nonBrace ha2 '\x7d' (by decide) hm
  refine ⟨?_, ?_, ?_, ?_⟩
  · have h23 : litRMa.length = 23 := by decide
    simp only [List.length_append]
    omega
  · intro j hj
    cases hx : startsWith (patTail.drop j) (w1 ++ litRMa ++ w2 ++ repRMend) with
    | false => rfl
    | true =>
      exfalso
      rw [List.append_assoc, List.append_assoc] at hx
      rcases startsWith_split _ _ _ hx with ⟨h1, h2⟩ | ⟨h1, h2, h3⟩
      · have hw := startsWith_all _ _ _ h2 ha1
        rw [patTail_drop_not_ws j hj] at hw
        exact absurd hw (by simp)
      · have hwl1 : 1 ≤ w1.length := by
          cases w1 with
          | nil => exact absurd rfl hne1
          | cons a as => simp
        have hwlt : w1.length < 8 := lt_of_lt_of_le h1 (patTail_drop_length j)
        rw [startsWith_append_long _ _ _ (by
          have hd1 : ((patTail.drop j).drop w1.length).length ≤ 8 := by
            rw [List.length_drop]
            have := patTail_drop_length j
            omega
          have h23 : litRMa.length = 23 := by decide
          omega)] at h3
        refine patTail_seg_ws_litRMa j hj w1.length hwlt hwl1 ⟨?_, h3⟩
        rw [startsWith_take _ _ h2]
        exact ha1
  · exact cs_pat_append_bfree _ _ hA cs_anyPat_repRMend
  · intro i hi
    rw [endsW_append_long _ _ _ (by
      have hti : (patTail.take i).length ≤ i := by
        rw [List.length_take]
        omega
      have h44 : (8:Nat) ≤ repRMend.length := by decide
      simp only [List.length_cons]
      omega)]
    exact ew_repRMend i hi

theorem try1_replok : ReplOkAll try1 := by
  intro s r k h
  unfold try1 at h
  split at h
  · split at h
    · split at h
      · injection h with h2
        injection h2 with hr hk
        subst hr
        exact replok_rep1 _ (by assumption)
      · exact absurd h (by simp)
    · exact absurd h (by simp)
  · exact absurd h (by simp)

/-- Pattern 1's matcher fires whenever `anyPat` starts the string: the final
delimiter `)` belongs to the class `[;,)]`. -/
theorem try1_none (c : Char) (cs : Str) (h : try1 (c :: cs) = none) :
    startsWith anyPat (c :: cs) = false := by
  cases hx : startsWith anyPat (c :: cs) with
  | false => rfl
  | true =>
    exfalso
    have hsplit : anyPat = lit1 ++ [')'] := by decide
    rw [hsplit] at hx
    obtain ⟨h1, h2⟩ := startsWith_append_elim _ _ _ hx
    have hlit1len : lit1.length = 8 := by decide
    rw [hlit1len] at h2
    unfold try1 at h
    rw [if_pos h1] at h
    cases hd : (c :: cs).drop 8 with
    | nil =>
      rw [hd] at h2
      exact absurd h2 (by simp [startsWith])
    | cons d rest =>
      rw [hd] at h h2
      rw [startsWith_cons_cons] at h2
      have hdp : ')' = d := by
        rw [Bool.and_eq_true] at h2
        simpa using h2.1
      subst hdp
      simp [classCh] at h

theorem try2_replok : ReplOkAll try2 := by
  intro s r k h
  unfold try2 at h
  split at h
  · exact absurd h (by simp)
  · split at h
    · injection h with h2
      injection h2 with hr hk
      subst hr
      exact replok_word_rep2t _
        (take_run_ne_nil s _ (by assumption) (wordRun_le_length s))
        (wordRun_take_all s)
    · exact absurd h (by simp)

theorem try3_replok : ReplOkAll try3 := by
  intro s r k h
  unfold try3 at h
  split at h
  · split at h
    · exact absurd h (by simp)
    · split at h
      · injection h with h2
        injection h2 with hr hk
        subst hr
        exact replok_rep3 _ (wordRun_take_all _)
      · exact absurd h (by simp)
  · exact absurd h (by simp)

theorem tryLit_replok (m r0 : Str) (hr : ReplOkB r0) : ReplOkAll (tryLit m r0) := by
  intro s r k h
  unfold tryLit at h
  split at h
  · injection h with h2
    injection h2 with hr2 hk
    subst hr2
    exact hr
  · exact absurd h (by simp)

theorem tryRM_replok : ReplOkAll tryRM := by
  intro s r k h
  unfold tryRM at h
  split at h
  · exact absurd h (by simp)
  · split at h
    · split at h
      · exact absurd h (by simp)
      · split at h
        · injection h with h2
          injection h2 with hr hk
          subst hr
          exact replok_repRM _ _
            (take_run_ne_nil s _ (by assumption) (wsRun_le_length s))
            (wsRun_take_all s) (nbRun_take_all _)
        · exact absurd h (by simp)
    · exact absurd h (by simp)

/-- Any match of the stats special-case regex ends in "RBRACE as any)", so a
match implies the string contains `anyPat`. -/
theorem tryStats_some_cs (t : Str) (p : Str × Nat) (h : tryStats t = some p) :
    containsSub anyPat t = true := by
  unfold tryStats at h
  split at h
  · exact absurd h (by simp)
  · split at h
    · split at h
      · split at h
        · have hsw : startsWith anyPat
              ((t.drop (wsRun t + 24)).drop (nbRun (t.drop (wsRun t + 24)))) = true := by
            assumption
          exact containsSub_of_drop _ _ _
            (containsSub_of_drop _ _ _ (containsSub_of_startsWith _ _ hsw))
        · exact absurd h (by simp)
      · exact absurd h (by simp)
    · exact absurd h (by simp)

/-- Any match of Pattern 9's regex ends in "RBRACE as any)", so a match
implies the string contains `anyPat`. -/
theorem tryP9_some_cs (t : Str) (p : Str × Nat) (h : tryP9 t = some p) :
    containsSub anyPat t = true := by
  unfold tryP9 at h
  split at h
  · exact absurd h (by simp)
  · split at h
    · split at h
      · exact absurd h (by simp)
      · split at h
        · have hsw : startsWith anyPat
              ((t.drop (wsRun t + 12)).drop (nbRun (t.drop (wsRun t + 12)))) = true := by
            assumption
          exact containsSub_of_drop _ _ _
            (containsSub_of_drop _ _ _ (containsSub_of_startsWith _ _ hsw))
        · exact absurd h (by simp)
    · exact absurd h (by simp)

theorem runSub_stats_id (s : Str) (h : containsSub anyPat s = false) :
    runSub tryStats s = s := by
  apply reSubF_id
  intro n
  cases hx : tryStats (s.drop n) with
  | none => rfl
  | some p =>
    exfalso
    have h1 := containsSub_of_drop anyPat s n (tryStats_some_cs _ p hx)
    rw [h1] at h
    exact absurd h (by simp)

theorem runSub_p9_id (s : Str) (h : containsSub anyPat s = false) :
    runSub tryP9 s = s := by
  apply reSubF_id
  intro n
  cases hx : tryP9 (s.drop n) with
  | none => rfl
  | some p =>
    exfalso
    have h1 := containsSub_of_drop anyPat s n (tryP9_some_cs _ p hx)
    rw [h1] at h
    exact absurd h (by simp)

/-- Pattern 1: `re.sub(r'\x7d as any([;,\)])', r'\x7d as unknown as MockedObject\1', content)`. -/
def pass1 (s : Str) : Str := runSub try1 s

/-- Pattern 2: `re.sub(r'(\w+) as any;', r'\1 as unknown as jest.MockedObject;', content)`. -/
def pass2 (s : Str) : Str := runSub try2 s

/-- Pattern 3: `re.sub(r'const mockedFs = (\w+) as any', ..., content)`. -/
def pass3 (s : Str) : Str := runSub try3 s

/-- Pattern 4: fixed-literal substitution for `let mockConnection: any`. -/
def pass4 (s : Str) : Str := runSub (tryLit lit4 rep4) s

/-- Pattern 5: fixed-literal substitution for `_connection: any`. -/
def pass5 (s : Str) : Str := runSub (tryLit lit5 rep5) s

/-- Pattern 6: fixed-literal substitution for `const obj: any =`. -/
def pass6 (s : Str) : Str := runSub (tryLit lit6 rep6) s

/-- The mockResourceManager special case, guarded by
`if 'mockResourceManager' in content`. -/
def passRM (s : Str) : Str :=
  if containsSub litRMg s then runSub tryRM s else s

/-- The stats special case, guarded by
`if 'isDirectory' in content and '\x7d as any' in content`. -/
def statsPass (s : Str) : Str :=
  if containsSub litIsDir s && containsSub lit1 s then runSub tryStats s else s

/-- Pattern 8, first substitution (`logOperation`). -/
def pass8a (s : Str) : Str := runSub (tryLit lit8a rep8a) s

/-- Pattern 8, second substitution (`getLogEntries`). -/
def pass8b (s : Str) : Str := runSub (tryLit lit8b rep8b) s

/-- Pattern 8, third substitution (`getOperationStatistics`). -/
def pass8c (s : Str) : Str := runSub (tryLit lit8c rep8c) s

/-- Pattern 8, fourth substitution (`clearLogs`). -/
def pass8d (s : Str) : Str := runSub (tryLit lit8d rep8d) s

/-- Pattern 9 (ServerConfig), guarded by
`if 'ServerConfig' in content or 'eventLogger' in content`. -/
def p9Pass (s : Str) : Str :=
  if containsSub litSC s || containsSub litELg s then runSub tryP9 s else s

/-- The full body of `fix_any_types_in_file` applied to the file content, in
the script's order: Patterns 1-6, the mockResourceManager special case, the
stats special case, the four Pattern 8 substitutions, then Pattern 9. -/
def fixAnyTypes (s : Str) : Str :=
  p9Pass (pass8d (pass8c (pass8b (pass8a (statsPass (passRM (pass6 (pass5
    (pass4 (pass3 (pass2 (pass1 s))))))))))))

/-- Patterns 1 through 8 alone (the substitutions other than the stats
special case and Pattern 9). -/
def chain18 (s : Str) : Str :=
  pass8d (pass8c (pass8b (pass8a (passRM (pass6 (pass5 (pass4 (pass3
    (pass2 (pass1 s))))))))))

theorem pass1_no_pat (s : Str) : containsSub anyPat (pass1 s) = false :=
  master_total try1 try1_replok try1_none s.length s (Nat.le_refl _)

theorem pass2_pre (s : Str) (h : containsSub anyPat s = false) :
    containsSub anyPat (pass2 s) = false :=
  master_pre try2 try2_replok s.length s h

theorem pass3_pre (s : Str) (h : containsSub anyPat s = false) :
    containsSub anyPat (pass3 s) = false :=
  master_pre try3 try3_replok s.length s h

theorem pass4_pre (s : Str) (h : containsSub anyPat s = false) :
    containsSub anyPat (pass4 s) = false :=
  master_pre _ (tryLit_replok lit4 rep4 replok_rep4) s.length s h

theorem pass5_pre (s : Str) (h : containsSub anyPat s = false) :
    containsSub anyPat (pass5 s) = false :=
  master_pre _ (tryLit_replok lit5 rep5 replok_rep5) s.length s h

theorem pass6_pre (s : Str) (h : containsSub anyPat s = false) :
    containsSub anyPat (pass6 s) = false :=
  master_pre _ (tryLit_replok lit6 rep6 replok_rep6) s.length s h

theorem passRM_pre (s : Str) (h : containsSub anyPat s = false) :
    containsSub anyPat (passRM s) = false := by
  unfold passRM
  split
  · exact master_pre tryRM tryRM_replok s.length s h
  · exact h

theorem pass8a_pre (s : Str) (h : containsSub anyPat s = false) :
    containsSub anyPat (pass8a s) = false :=
  master_pre _ (tryLit_replok lit8a rep8a replok_rep8a) s.length s h

theorem pass8b_pre (s : Str) (h : containsSub anyPat s = false) :
    containsSub anyPat (pass8b s) = false :=
  master_pre _ (tryLit_replok lit8b rep8b replok_rep8b) s.length s h

theorem pass8c_pre (s : Str) (h : containsSub anyPat s = false) :
    containsSub anyPat (pass8c s) = false :=
  master_pre _ (tryLit_replok lit8c rep8c replok_rep8c) s.length s h

theorem pass8d_pre (s : Str) (h : containsSub anyPat s = false) :
    containsSub anyPat (pass8d s) = false :=
  master_pre _ (tryLit_replok lit8d rep8d replok_rep8d) s.length s h

/-- After Pattern 1, no pass of the script ever reintroduces an occurrence
of `anyPat`: it is absent from the output of Patterns 1-8. -/
theorem chain18_no_pat (s : Str) : containsSub anyPat (chain18 s) = false := by
  unfold chain18
  exact pass8d_pre _ (pass8c_pre _ (pass8b_pre _ (pass8a_pre _ (passRM_pre _
    (pass6_pre _ (pass5_pre _ (pass4_pre _ (pass3_pre _
      (pass2_pre _ (pass1_no_pat s))))))))))

theorem statsPass_id (s : Str) (h : containsSub anyPat s = false) :
    statsPass s = s := by
  unfold statsPass
  split
  · exact runSub_stats_id s h
  · rfl

theorem p9Pass_id (s : Str) (h : containsSub anyPat s = false) :
    p9Pass s = s := by
  unfold p9Pass
  split
  · exact runSub_p9_id s h
  · rfl

/-- The full transformation coincides with Patterns 1-8 alone: the stats
special case and Pattern 9 never fire after Pattern 1 has run. -/
theorem fixAnyTypes_eq_chain18 (s : Str) : fixAnyTypes s = chain18 s := by
  have h7 : containsSub anyPat (passRM (pass6 (pass5 (pass4 (pass3 (pass2
      (pass1 s))))))) = false :=
    passRM_pre _ (pass6_pre _ (pass5_pre _ (pass4_pre _ (pass3_pre _
      (pass2_pre _ (pass1_no_pat s))))))
  unfold fixAnyTypes chain18
  rw [statsPass_id _ h7]
  exact p9Pass_id _ (pass8d_pre _ (pass8c_pre _ (pass8b_pre _ (pass8a_pre _ h7))))

/-- The script's transformation on a file content, as a `String`. -/
def fixStr (c : String) : String := (fixAnyTypes c.toList).asString

/-- The I/O actions the script model can perform.  `readStdin` is included
in the vocabulary precisely to express that this script never performs it. -/
inductive Event where
  | readStdin : Event
  | fileRead : String → Event
  | fileWrite : String → String → Event
  | printOut : String → Event
  | printErr : String → Event
deriving DecidableEq

/-- `fix_any_types_in_file`: read the file, apply the substitutions, write
the file back iff the content changed, and return whether it changed.  The
result is the list of I/O events, the returned Boolean, and the content of
the file on disk afterwards. -/
def fix_any_types_in_file (p : String) (c : String) : List Event × Bool × String :=
  if fixStr c ≠ c then
    ([Event.fileRead p, Event.fileWrite p (fixStr c)], true, fixStr c)
  else
    ([Event.fileRead p], false, c)

/-- The file-system state the script consults: whether `tests/unit` exists,
the `*.test.ts` files below it in `rglob` order, and `tests/setup.ts`.
A file with content `none` exists but raises on `open` (e.g. a permission
error); `setupFile = none` means `tests/setup.ts` is absent. -/
structure FS where
  unitDirExists : Bool
  unitTestFiles : List (String × Option String)
  setupFile : Option (Option String)
deriving DecidableEq

/-- Result of the loop over the test files: trace, updated files, the
accumulated `fixed_files` names, and whether the loop ran to completion
(`ok = false` means an exception escaped at the current file). -/
structure BatchOut where
  trace : List Event
  files : List (String × Option String)
  fixedNames : List String
  ok : Bool
deriving DecidableEq

/-- The `for test_file in test_dir.rglob('*.test.ts')` loop of `main`.  An
unreadable file raises; the loop stops there and later files are untouched. -/
def runFiles : List (String × Option String) → BatchOut
  | [] => ⟨[], [], [], true⟩
  | (p, none) :: rest => ⟨[Event.fileRead p], (p, none) :: rest, [], false⟩
  | (p, some c) :: rest =>
    let u := fix_any_types_in_file p c
    let v := runFiles rest
    ⟨u.1 ++ v.trace, (p, some u.2.2) :: v.files,
      (if u.2.1 then [p] else []) ++ v.fixedNames, v.ok⟩

/-- Outcome of one execution of the script: normal termination via
`sys.exit(main())`, or an uncaught exception. -/
inductive ScriptResult where
  | exited : Nat → List Event → FS → ScriptResult
  | crashed : List Event → FS → ScriptResult
deriving DecidableEq

def digitChar : Nat → Char
  | 0 => '0'
  | 1 => '1'
  | 2 => '2'
  | 3 => '3'
  | 4 => '4'
  | 5 => '5'
  | 6 => '6'
  | 7 => '7'
  | 8 => '8'
  | 9 => '9'
  | _ => '?'

def natDigits : Nat → Nat → List Char
  | 0, _ => []
  | f + 1, n => if n < 10 then [digitChar n] else natDigits f (n / 10) ++ [digitChar (n % 10)]

/-- Decimal rendering of a natural number (Python `str`/f-string on an int). -/
def natToStr (n : Nat) : String := (natDigits (n + 1) n).asString

/-- The report printed at the end of `main`:
`print(f"Fixed ... files:")` followed by one line per fixed file.  Python's
`print` writes to standard output. -/
def reportEvents (fixedNames : List String) : List Event :=
  Event.printOut ("Fixed " ++ natToStr fixedNames.length ++ " files:") ::
    fixedNames.map (fun p => Event.printOut ("  - " ++ p))

/-- The whole script: `main` plus the `sys.exit(main())` wrapper and the
interpreter's behaviour on an uncaught exception. -/
def runScript (fs : FS) : ScriptResult :=
  if fs.unitDirExists = false then
    ScriptResult.exited 1 [Event.printOut "Error: tests/unit does not exist"] fs
  else if (runFiles fs.unitTestFiles).ok = false then
    ScriptResult.crashed (runFiles fs.unitTestFiles).trace
      ⟨fs.unitDirExists, (runFiles fs.unitTestFiles).files, fs.setupFile⟩
  else
    match fs.setupFile with
    | none =>
      ScriptResult.exited 0
        ((runFiles fs.unitTestFiles).trace ++
          reportEvents (runFiles fs.unitTestFiles).fixedNames)
        ⟨fs.unitDirExists, (runFiles fs.unitTestFiles).files, none⟩
    | some none =>
      ScriptResult.crashed
        ((runFiles fs.unitTestFiles).trace ++ [Event.fileRead "tests/setup.ts"])
        ⟨fs.unitDirExists, (runFiles fs.unitTestFiles).files, some none⟩
    | some (some c) =>
      ScriptResult.exited 0
        ((runFiles fs.unitTestFiles).trace ++
          (fix_any_types_in_file "tests/setup.ts" c).1 ++
          reportEvents ((runFiles fs.unitTestFiles).fixedNames ++
            (if (fix_any_types_in_file "tests/setup.ts" c).2.1
              then ["tests/setup.ts"] else [])))
        ⟨fs.unitDirExists, (runFiles fs.unitTestFiles).files,
          some (some (fix_any_types_in_file "tests/setup.ts" c).2.2)⟩

/-- The process exit status: the value passed to `sys.exit` on normal
termination, and 1 (the interpreter's status for an uncaught exception,
after it logs the traceback) on a crash. -/
def exitStatus : ScriptResult → Nat
  | ScriptResult.exited c _ _ => c
  | ScriptResult.crashed _ _ => 1

def traceOf : ScriptResult → List Event
  | ScriptResult.exited _ tr _ => tr
  | ScriptResult.crashed tr _ => tr

/-- Whether an exception escaped the script. -/
def raised : ScriptResult → Bool
  | ScriptResult.exited _ _ _ => false
  | ScriptResult.crashed _ _ => true

def finalFS : ScriptResult → FS
  | ScriptResult.exited _ _ g => g
  | ScriptResult.crashed _ g => g

def isStdinRead : Event → Bool
  | Event.readStdin => true
  | _ => false

def isFileEvent : Event → Bool
  | Event.fileRead _ => true
  | Event.fileWrite _ _ => true
  | _ => false

def isStderrPrint : Event → Bool
  | Event.printErr _ => true
  | _ => false

def isWriteEvent : Event → Bool
  | Event.fileWrite _ _ => true
  | _ => false

/-- Whether a trace consumes standard input. -/
def readsStdin (tr : List Event) : Bool := tr.any isStdinRead

/-- Whether a trace touches the file system. -/
def touchesFiles (tr : List Event) : Bool := tr.any isFileEvent

/-- Whether a trace writes to standard error. -/
def printsStderr (tr : List Event) : Bool := tr.any isStderrPrint

/-- Whether a trace writes a file. -/
def hasWrite (tr : List Event) : Bool := tr.any isWriteEvent

theorem runScript_eq_noDir (fs : FS) (h : fs.unitDirExists = false) :
    runScript fs = ScriptResult.exited 1
      [Event.printOut "Error: tests/unit does not exist"] fs := by
  unfold runScript
  rw [if_pos h]

theorem runScript_eq_crash (fs : FS) (h1 : ¬fs.unitDirExists = false)
    (h2 : (runFiles fs.unitTestFiles).ok = false) :
    runScript fs = ScriptResult.crashed (runFiles fs.unitTestFiles).trace
      ⟨fs.unitDirExists, (runFiles fs.unitTestFiles).files, fs.setupFile⟩ := by
  unfold runScript
  rw [if_neg h1, if_pos h2]

theorem runScript_eq_noSetup (fs : FS) (h1 : ¬fs.unitDirExists = false)
    (h2 : ¬(runFiles fs.unitTestFiles).ok = false) (h3 : fs.setupFile = none) :
    runScript fs = ScriptResult.exited 0
      ((runFiles fs.unitTestFiles).trace ++
        reportEvents (runFiles fs.unitTestFiles).fixedNames)
      ⟨fs.unitDirExists, (runFiles fs.unitTestFiles).files, none⟩ := by
  unfold runScript
  rw [if_neg h1, if_neg h2, h3]

theorem runScript_eq_setupCrash (fs : FS) (h1 : ¬fs.unitDirExists = false)
    (h2 : ¬(runFiles fs.unitTestFiles).ok = false)
    (h3 : fs.setupFile = some none) :
    runScript fs = ScriptResult.crashed
      ((runFiles fs.unitTestFiles).trace ++ [Event.fileRead "tests/setup.ts"])
      ⟨fs.unitDirExists, (runFiles fs.unitTestFiles).files, some none⟩ := by
  unfold runScript
  rw [if_neg h1, if_neg h2, h3]

theorem runScript_eq_setup (fs : FS) (c : String) (h1 : ¬fs.unitDirExists = false)
    (h2 : ¬(runFiles fs.unitTestFiles).ok = false)
    (h3 : fs.setupFile = some (some c)) :
    runScript fs = ScriptResult.exited 0
      ((runFiles fs.unitTestFiles).trace ++
        (fix_any_types_in_file "tests/setup.ts" c).1 ++
        reportEvents ((runFiles fs.unitTestFiles).fixedNames ++
          (if (fix_any_types_in_file "tests/setup.ts" c).2.1
            then ["tests/setup.ts"] else [])))
      ⟨fs.unitDirExists, (runFiles fs.unitTestFiles).files,
        some (some (fix_any_types_in_file "tests/setup.ts" c).2.2)⟩ := by
  unfold runScript
  rw [if_neg h1, if_neg h2, h3]

theorem fixfile_any (q : Event → Bool) (p c : String)
    (hq1 : ∀ x, q (Event.fileRead x) = false)
    (hq2 : ∀ x t, q (Event.fileWrite x t) = false) :
    (fix_any_types_in_file p c).1.any q = false := by
  unfold fix_any_types_in_file
  split <;> simp [hq1, hq2]

theorem runFiles_any (q : Event → Bool)
    (hq1 : ∀ x, q (Event.fileRead x) = false)
    (hq2 : ∀ x t, q (Event.fileWrite x t) = false) :
    ∀ l, (runFiles l).trace.any q = false := by
  intro l
  induction l with
  | nil => rfl
  | cons hd rest ih =>
    obtain ⟨p, oc⟩ := hd
    cases oc with
    | none => simp [runFiles, hq1]
    | some c =>
      simp only [runFiles, List.any_append, Bool.or_eq_false_iff]
      exact ⟨fixfile_any q p c hq1 hq2, ih⟩

theorem reportEvents_any (q : Event → Bool)
    (hq : ∀ s, q (Event.printOut s) = false) :
    ∀ l, (reportEvents l).any q = false := by
  intro l
  rw [reportEvents, List.any_cons, hq, Bool.false_or]
  apply List.any_eq_false.mpr
  intro x hx
  obtain ⟨p, -, rfl⟩ := List.mem_map.mp hx
  simp [hq]

/-- Every event the script can emit is a file read, a file write or a line
printed to standard output. -/
theorem runScript_any (q : Event → Bool)
    (hq1 : ∀ x, q (Event.fileRead x) = false)
    (hq2 : ∀ x t, q (Event.fileWrite x t) = false)
    (hq3 : ∀ s, q (Event.printOut s) = false) :
    ∀ fs, (traceOf (runScript fs)).any q = false := by
  intro fs
  by_cases h1 : fs.unitDirExists = false
  · rw [runScript_eq_noDir fs h1]
    simp [traceOf, hq3]
  · by_cases h2 : (runFiles fs.unitTestFiles).ok = false
    · rw [runScript_eq_crash fs h1 h2]
      exact runFiles_any q hq1 hq2 _
    · cases h3 : fs.setupFile with
      | none =>
        rw [runScript_eq_noSetup fs h1 h2 h3]
        simp only [traceOf, List.any_append, Bool.or_eq_false_iff]
        exact ⟨runFiles_any q hq1 hq2 _, reportEvents_any q hq3 _⟩
      | some oc =>
        cases oc with
        | none =>
          rw [runScript_eq_setupCrash fs h1 h2 h3]
          simp only [traceOf, List.any_append, Bool.or_eq_false_iff]
          exact ⟨runFiles_any q hq1 hq2 _, by simp [hq1]⟩
        | some c =>
          rw [runScript_eq_setup fs c h1 h2 h3]
          simp only [traceOf, List.any_append, Bool.or_eq_false_iff]
          exact ⟨⟨runFiles_any q hq1 hq2 _, fixfile_any q _ c hq1 hq2⟩,
            reportEvents_any q hq3 _⟩

/-- Modelled from the spec: a rule of the guard scripts' pattern tables — a
regular expression mapped to a human-readable description ("violated rule")
and a suggested safer alternative.  The guard scripts themselves are not
among the staged source files; only this classifier shape is described by
the spec.  A pattern is modelled as a substring to search for. -/
structure GuardRule where
  rx : Str
  rule : String
  alt : String
deriving DecidableEq

/-- Modelled from the spec: the ordered tiers of regular expressions
(safe / risky / dangerous / critical) of a guard script. -/
structure RuleTable where
  safeRules : List GuardRule
  riskyRules : List GuardRule
  dangerousRules : List GuardRule
  criticalRules : List GuardRule
deriving DecidableEq

/-- Modelled from the spec: the four risk tiers. -/
inductive Tier where
  | safe : Tier
  | risky : Tier
  | dangerous : Tier
  | critical : Tier
deriving DecidableEq

/-- Severity order of the tiers. -/
def sev : Tier → Nat
  | Tier.safe => 0
  | Tier.risky => 1
  | Tier.dangerous => 2
  | Tier.critical => 3

def tierRules (tb : RuleTable) : Tier → List GuardRule
  | Tier.safe => tb.safeRules
  | Tier.risky => tb.riskyRules
  | Tier.dangerous => tb.dangerousRules
  | Tier.critical => tb.criticalRules

/-- A rule matches an input when its pattern occurs in the input. -/
def ruleHits (r : GuardRule) (input : Str) : Bool := containsSub r.rx input

/-- Whether some pattern of the tier matches the input. -/
def tierHit (tb : RuleTable) (input : Str) (t : Tier) : Bool :=
  (tierRules tb t).any (fun r => ruleHits r input)

/-- Modelled from the spec: the risk classification is the highest-severity
tier among those whose patterns matched (linear regex scanning over the
ordered tiers, highest tier first). -/
def classify (tb : RuleTable) (input : Str) : Tier :=
  if tierHit tb input Tier.critical then Tier.critical
  else if tierHit tb input Tier.dangerous then Tier.dangerous
  else if tierHit tb input Tier.risky then Tier.risky
  else Tier.safe

def allRules (tb : RuleTable) : List GuardRule :=
  tb.criticalRules ++ tb.dangerousRules ++ tb.riskyRules ++ tb.safeRules

/-- The rules whose patterns matched the input. -/
def matchedRules (tb : RuleTable) (input : Str) : List GuardRule :=
  (allRules tb).filter (fun r => ruleHits r input)

/-- Modelled from the spec: the classifier's full result — a risk
classification, the list of violated rules, and the list of suggested safer
alternatives. -/
def classifyFull (tb : RuleTable) (input : Str) :
    Tier × List String × List String :=
  (classify tb input, (matchedRules tb input).map GuardRule.rule,
    (matchedRules tb input).map GuardRule.alt)

theorem runFiles_head_read (p : String) (oc : Option String)
    (rest : List (String × Option String)) :
    Event.fileRead p ∈ (runFiles ((p, oc) :: rest)).trace := by
  cases oc with
  | none => simp [runFiles]
  | some c =>
    simp only [runFiles]
    apply List.mem_append.mpr
    left
    unfold fix_any_types_in_file
    split <;> simp

/-- On every path past the directory check, the trace of the file loop is an
initial part of the script's trace. -/
theorem runFiles_trace_sub (fs : FS) (h1 : fs.unitDirExists = true) (e : Event)
    (he : e ∈ (runFiles fs.unitTestFiles).trace) :
    e ∈ traceOf (runScript fs) := by
  have h1' : ¬fs.unitDirExists = false := by simp [h1]
  by_cases h2 : (runFiles fs.unitTestFiles).ok = false
  · rw [runScript_eq_crash fs h1' h2]
    exact he
  · cases h3 : fs.setupFile with
    | none =>
      rw [runScript_eq_noSetup fs h1' h2 h3]
      exact List.mem_append.mpr (Or.inl he)
    | some oc =>
      cases oc with
      | none =>
        rw [runScript_eq_setupCrash fs h1' h2 h3]
        exact List.mem_append.mpr (Or.inl he)
      | some c =>
        rw [runScript_eq_setup fs c h1' h2 h3]
        exact List.mem_append.mpr (Or.inl (List.mem_append.mpr (Or.inl he)))

/-- Concrete file system used to exhibit C2: `tests/unit` exists and holds
one unreadable test file, so `open` raises inside the loop. -/
def fsC2 : FS := ⟨true, [("tests/unit/a.test.ts", none)], none⟩

/-- Concrete file system used to exhibit C4: one empty, readable test file. -/
def fsC4 : FS := ⟨true, [("tests/unit/a.test.ts", some "")], none⟩

/-- Concrete file system used to exhibit C5: the directory exists and is
empty, so the script prints its report and exits 0. -/
def fsC5 : FS := ⟨true, [], none⟩

/-- Concrete file system used to exhibit C9: `tests/unit` does not exist. -/
def fsC9 : FS := ⟨false, [("tests/unit/a.test.ts", some "x")], some (some "y")⟩

/-- C2: the claim says that on any exception the script logs it and exits
with status 0.  The code has no `try`/`except` at all: an exception raised
during processing propagates out of `main`, the interpreter prints the
traceback, and the process exits with status 1, not 0.  This counterexample
runs the script on a file system whose one test file is unreadable: an
exception is raised, and the exit status is not 0. -/
theorem c2_counterexample :
    raised (runScript fsC2) = true ∧ exitStatus (runScript fsC2) ≠ 0 := by
  decide

/-- C2 (amended): on every execution in which an exception is raised during
processing, the exception propagates unhandled and the script terminates
with exit status 1 (the interpreter's status after logging the traceback),
never with status 0. -/
theorem c2_theorem (fs : FS) (h : raised (runScript fs) = true) :
    exitStatus (runScript fs) = 1 := by
  cases hr : runScript fs with
  | exited c tr g =>
    rw [hr] at h
    exact absurd h (by simp [raised])
  | crashed tr g => rfl

theorem c2_witness :
    raised (runScript fsC2) = true ∧ exitStatus (runScript fsC2) = 1 :=
  ⟨by decide, c2_theorem fsC2 (by decide)⟩

/-- C3: every execution terminates with an exit status in the range 0..3.
In fact only 0 (success) and 1 (missing directory, or an uncaught
exception) occur. -/
theorem c3_theorem (fs : FS) : exitStatus (runScript fs) ≤ 3 := by
  by_cases h1 : fs.unitDirExists = false
  · rw [runScript_eq_noDir fs h1]
    simp [exitStatus]
  · by_cases h2 : (runFiles fs.unitTestFiles).ok = false
    · rw [runScript_eq_crash fs h1 h2]
      simp [exitStatus]
    · cases h3 : fs.setupFile with
      | none =>
        rw [runScript_eq_noSetup fs h1 h2 h3]
        simp [exitStatus]
      | some oc =>
        cases oc with
        | none =>
          rw [runScript_eq_setupCrash fs h1 h2 h3]
          simp [exitStatus]
        | some c =>
          rw [runScript_eq_setup fs c h1 h2 h3]
          simp [exitStatus]

/-- C4: the claim says the script reads a JSON event payload from standard
input.  It does not: its trace on a concrete file system contains a file
read and no read of standard input (the script's input is the file system). -/
theorem c4_counterexample :
    readsStdin (traceOf (runScript fsC4)) = false ∧
    Event.fileRead "tests/unit/a.test.ts" ∈ traceOf (runScript fsC4) := by
  decide

/-- C4 (amended): the script never reads standard input (and parses no
JSON); it obtains its input by reading files — the `*.test.ts` files under
`tests/unit` (each is read when the loop reaches it) and `tests/setup.ts`. -/
theorem c4_theorem (fs : FS) :
    readsStdin (traceOf (runScript fs)) = false ∧
    (∀ p oc rest, fs.unitTestFiles = (p, oc) :: rest →
      fs.unitDirExists = true → Event.fileRead p ∈ traceOf (runScript fs)) := by
  constructor
  · exact runScript_any isStdinRead (fun x => rfl) (fun x t => rfl) (fun s => rfl) fs
  · intro p oc rest hfiles h1
    apply runFiles_trace_sub fs h1
    rw [hfiles]
    exact runFiles_head_read p oc rest

/-- C5: the claim says the report is printed to standard error.  It is not:
the script prints with Python's `print`, which writes to standard output.
On a concrete run the report line is in the trace as a standard-output
write, and nothing is written to standard error. -/
theorem c5_counterexample :
    printsStderr (traceOf (runScript fsC5)) = false ∧
    Event.printOut "Fixed 0 files:" ∈ traceOf (runScript fsC5) := by
  decide

/-- C5 (amended): the script itself writes nothing to standard error, and on
every run that passes the directory check and raises no exception it prints
the formatted report to standard output before exiting. -/
theorem c5_theorem (fs : FS) :
    printsStderr (traceOf (runScript fs)) = false ∧
    (fs.unitDirExists = true → raised (runScript fs) = false →
      ∃ n, Event.printOut ("Fixed " ++ natToStr n ++ " files:") ∈
        traceOf (runScript fs)) := by
  constructor
  · exact runScript_any isStderrPrint (fun x => rfl) (fun x t => rfl) (fun s => rfl) fs
  · intro h1 h2
    have h1' : ¬fs.unitDirExists = false := by simp [h1]
    by_cases hok : (runFiles fs.unitTestFiles).ok = false
    · rw [runScript_eq_crash fs h1' hok] at h2
      exact absurd h2 (by simp [raised])
    · cases h3 : fs.setupFile with
      | none =>
        refine ⟨(runFiles fs.unitTestFiles).fixedNames.length, ?_⟩
        rw [runScript_eq_noSetup fs h1' hok h3]
        apply List.mem_append.mpr
        right
        simp [reportEvents]
      | some oc =>
        cases oc with
        | none =>
          rw [runScript_eq_setupCrash fs h1' hok h3] at h2
          exact absurd h2 (by simp [raised])
        | some c =>
          refine ⟨((runFiles fs.unitTestFiles).fixedNames ++
            (if (fix_any_types_in_file "tests/setup.ts" c).2.1
              then ["tests/setup.ts"] else [])).length, ?_⟩
          rw [runScript_eq_setup fs c h1' hok h3]
          apply List.mem_append.mpr
          right
          simp [reportEvents]

/-- C7: `fix_any_types_in_file` returns True iff the transformed content
differs from the original, it writes the file exactly when it returns True,
and when it returns False the file on disk is byte-for-byte the original. -/
theorem c7_theorem (p c : String) :
    ((fix_any_types_in_file p c).2.1 = true ↔ fixStr c ≠ c) ∧
    (hasWrite (fix_any_types_in_file p c).1 = true ↔
      (fix_any_types_in_file p c).2.1 = true) ∧
    ((fix_any_types_in_file p c).2.1 = false →
      (fix_any_types_in_file p c).2.2 = c) ∧
    ((fix_any_types_in_file p c).2.1 = true →
      (fix_any_types_in_file p c).2.2 = fixStr c) := by
  unfold fix_any_types_in_file
  by_cases h : fixStr c ≠ c
  · rw [if_pos h]
    refine ⟨by simp [h], by simp [hasWrite, isWriteEvent], by simp, by simp⟩
  · rw [if_neg h]
    refine ⟨by simp [h], by simp [hasWrite, isWriteEvent], by simp, by simp⟩

/-- C9: when `tests/unit` does not exist, `main` prints the error message,
exits with status 1, performs no file read or write, and leaves the file
system unchanged. -/
theorem c9_theorem (fs : FS) (h : fs.unitDirExists = false) :
    runScript fs = ScriptResult.exited 1
      [Event.printOut "Error: tests/unit does not exist"] fs ∧
    touchesFiles (traceOf (runScript fs)) = false ∧
    finalFS (runScript fs) = fs ∧
    exitStatus (runScript fs) = 1 := by
  have he := runScript_eq_noDir fs h
  refine ⟨he, ?_, ?_, ?_⟩ <;> rw [he] <;> rfl

theorem c9_witness :
    fsC9.unitDirExists = false ∧
    (runScript fsC9 = ScriptResult.exited 1
      [Event.printOut "Error: tests/unit does not exist"] fsC9 ∧
    touchesFiles (traceOf (runScript fsC9)) = false ∧
    finalFS (runScript fsC9) = fsC9 ∧
    exitStatus (runScript fsC9) = 1) :=
  ⟨rfl, c9_theorem fsC9 rfl⟩

/-- C8: Pattern 1 runs first and removes every occurrence of
"RBRACE as any)"; none of Patterns 2-8 (including the mockResourceManager
special case) reintroduces one; hence the stats special-case substitution
and the Pattern 9 ServerConfig substitution act as the identity on the
already-transformed string, and composing them after Patterns 1 through 8
equals applying Patterns 1 through 8 alone — which is also the script's full
transformation. -/
theorem c8_theorem (s : Str) :
    containsSub anyPat (pass1 s) = false ∧
    containsSub anyPat (chain18 s) = false ∧
    statsPass (chain18 s) = chain18 s ∧
    p9Pass (chain18 s) = chain18 s ∧
    fixAnyTypes s = chain18 s :=
  ⟨pass1_no_pat s, chain18_no_pat s, statsPass_id _ (chain18_no_pat s),
    p9Pass_id _ (chain18_no_pat s), fixAnyTypes_eq_chain18 s⟩

/-- C1: in the tiered classifier, whenever any tier's pattern matches the
input, the reported classification has at least that tier's severity (the
highest-severity matching tier wins), and the reported classification is
itself a matching tier unless it is the default `safe`. -/
theorem c1_theorem (tb : RuleTable) (input : Str) (t : Tier)
    (h : tierHit tb input t = true) :
    sev t ≤ sev (classify tb input) ∧
    (classify tb input = Tier.safe ∨
      tierHit tb input (classify tb input) = true) := by
  unfold classify
  by_cases hc : tierHit tb input Tier.critical = true
  · rw [if_pos hc]
    refine ⟨?_, Or.inr hc⟩
    cases t <;> simp [sev]
  · rw [if_neg hc]
    by_cases hd : tierHit tb input Tier.dangerous = true
    · rw [if_pos hd]
      refine ⟨?_, Or.inr hd⟩
      cases t with
      | safe => simp [sev]
      | risky => simp [sev]
      | dangerous => simp [sev]
      | critical => exact absurd h hc
    · rw [if_neg hd]
      by_cases hr : tierHit tb input Tier.risky = true
      · rw [if_pos hr]
        refine ⟨?_, Or.inr hr⟩
        cases t with
        | safe => simp [sev]
        | risky => simp [sev]
        | dangerous => exact absurd h hd
        | critical => exact absurd h hc
      · rw [if_neg hr]
        refine ⟨?_, Or.inl rfl⟩
        cases t with
        | safe => simp [sev]
        | risky => exact absurd h hr
        | dangerous => exact absurd h hd
        | critical => exact absurd h hc

/-- A rule table exercising the classifier: a risky rule and a dangerous
rule that both match the example input. -/
def tbC1 : RuleTable :=
  ⟨[], [⟨"sudo".toList, "privilege escalation", "run without sudo"⟩],
    [⟨"rm -rf".toList, "recursive force delete", "delete specific paths"⟩], []⟩

def inC1 : Str := "sudo rm -rf /tmp/scratch".toList

theorem c1_witness :
    tierHit tbC1 inC1 Tier.risky = true ∧
    (sev Tier.risky ≤ sev (classify tbC1 inC1) ∧
      (classify tbC1 inC1 = Tier.safe ∨
        tierHit tbC1 inC1 (classify tbC1 inC1) = true)) :=
  ⟨by decide, c1_theorem tbC1 inC1 Tier.risky (by decide)⟩

/-- C6: the classifier produces exactly three results — the risk
classification, the list of violated rules and the equally long list of
suggested safer alternatives — and the two lists are the descriptions and
alternatives of precisely the rules whose patterns matched the input. -/
theorem c6_theorem (tb : RuleTable) (input : Str) :
    classifyFull tb input =
      (classify tb input, (matchedRules tb input).map GuardRule.rule,
        (matchedRules tb input).map GuardRule.alt) ∧
    (classifyFull tb input).2.1.length = (classifyFull tb input).2.2.length ∧
    (∀ d, d ∈ (classifyFull tb input).2.1 ↔
      ∃ r, r ∈ allRules tb ∧ ruleHits r input = true ∧ r.rule = d) ∧
    (∀ a, a ∈ (classifyFull tb input).2.2 ↔
      ∃ r, r ∈ allRules tb ∧ ruleHits r input = true ∧ r.alt = a) := by
  refine ⟨rfl, ?_, ?_, ?_⟩
  · simp [classifyFull]
  · intro d
    simp only [classifyFull, matchedRules, List.mem_map, List.mem_filter]
    constructor
    · rintro ⟨r, ⟨h1, h2⟩, h3⟩
      exact ⟨r, h1, h2, h3⟩
    · rintro ⟨r, h1, h2, h3⟩
      exact ⟨r, ⟨h1, h2⟩, h3⟩
  · intro a
    simp only [classifyFull, matchedRules, List.mem_map, List.mem_filter]
    constructor
    · rintro ⟨r, ⟨h1, h2⟩, h3⟩
      exact ⟨r, h1, h2, h3⟩
    · rintro ⟨r, h1, h2, h3⟩
      exact ⟨r, ⟨h1, h2⟩, h3⟩
